import Mathlib

/-!
Shallow embedding of the conflict-sync helper `git_sync.py`.

The source file is cut off after its line 72, in the middle of
`resolve_file`'s reconstruction branch for choice "1".  Everything that is
visible (the `run` helper, `has_conflict_markers`, and the scanning walk of
`resolve_file`, source lines 28-59) is translated here directly from the
source; the missing reconstruction tail is modelled from the spec and marked
as such in the doc comments of the definitions concerned.

A file's text is a `List Char`; a line (as produced by Python's
`str.splitlines(keepends=True)`) is a `List Char` that keeps its terminator.
-/

/-- A line of a text file, terminator included (Python `splitlines(keepends=True)`). -/
abbrev Line : Type := List Char

/-- Python `str.splitlines(keepends=True)`, restricted to the three common
line terminators `"\n"`, `"\r\n"` and `"\r"` (the exotic Unicode line
boundaries Python also splits on play no role in conflict markers). -/
def splitlines : List Char → List Line
  | [] => []
  | [c] => [[c]]
  | c :: d :: rest =>
    if c = '\n' then ['\n'] :: splitlines (d :: rest)
    else if c = '\r' then
      if d = '\n' then ['\r', '\n'] :: splitlines rest
      else ['\r'] :: splitlines (d :: rest)
    else
      match splitlines (d :: rest) with
      | [] => [[c]]
      | l :: ls => (c :: l) :: ls

/-- Python's substring test `needle in hay` on character lists. -/
def hasSub (needle : List Char) : List Char → Bool
  | [] => List.isPrefixOf needle []
  | c :: rest => List.isPrefixOf needle (c :: rest) || hasSub needle rest

/-- The bare seven-character start-marker token, source line 39. -/
def conflictToken : List Char := "<<<<<<<".toList

/-- Source lines 38-39: `def has_conflict_markers(text): return "<<<<<<<" in text`.
A plain substring containment test on the whole text. -/
def has_conflict_markers (text : List Char) : Bool := hasSub conflictToken text

/-- Start marker with its trailing space, as tested on source line 51. -/
def oursMarker : List Char := "<<<<<<< ".toList

/-- Separator marker, seven equals signs with no trailing-space requirement,
as tested on source line 54. -/
def sepMarker : List Char := "=======".toList

/-- End marker with its trailing space, as tested on source line 57. -/
def theirsMarker : List Char := ">>>>>>> ".toList

/-- Source line 51: `line.startswith("<<<<<<< ")`. -/
def isStartMarker (l : Line) : Bool := List.isPrefixOf oursMarker l

/-- Source line 54: `lines[i].startswith("=======")`. -/
def isSepMarker (l : Line) : Bool := List.isPrefixOf sepMarker l

/-- Source line 57: `lines[i].startswith(">>>>>>> ")`. -/
def isEndMarker (l : Line) : Bool := List.isPrefixOf theirsMarker l

/-- How the walk of `resolve_file` can fail.  `indexError` is Python's
IndexError raised by the unguarded `lines[i]` accesses on source lines 54
and 57 when a marker search runs past end-of-file.  `malformedConflict` is
the spec's distinct `MalformedConflict` error; it is declared so that the
spec's error-reporting claims can be stated, and it is never produced by
the walk translated from the source. -/
inductive ScanErr where
  | indexError
  | malformedConflict
deriving DecidableEq

/-- The spec's `ConflictRegion` record, with the index fields computed by
the source's walk: `ours_start_line` is the source's `ours_start = i + 1`
(first line of the ours payload), `separator_line` the index found by the
separator search, `theirs_end_line` the source's `theirs_end` (the index of
the end-marker line).  `ours_text` is `lines[ours_start : theirs_start - 1]`
and `theirs_text` is `lines[theirs_start : theirs_end]`. -/
structure ConflictRegion where
  ours_start_line : Nat
  separator_line : Nat
  theirs_end_line : Nat
  ours_text : List Line
  theirs_text : List Line
deriving DecidableEq

/-- The spec's closed resolution choice: source choices "1", "2", "b". -/
inductive ResolutionChoice where
  | takeOurs
  | takeTheirs
  | takeBoth
deriving DecidableEq

/-- The source's marker-search loops (lines 54-55 and 57-58):
`while not lines[j].startswith(m): j += 1`, started at the current index,
returns the elements before the first match, the matching line, and the
elements after it; `none` when the search runs past end-of-file (which in
the source raises IndexError). -/
def breakAt (p : Line → Bool) : List Line → Option (List Line × Line × List Line)
  | [] => none
  | l :: rest =>
    if p l then some ([], l, rest)
    else
      match breakAt p rest with
      | none => none
      | some (a, b, c) => some (l :: a, b, c)

/-- The whole-file walk of `resolve_file` (source lines 47-72) over the
`splitlines(keepends=True)` line list, returning both the regions found (the
spec's `scan`) and the rebuilt line list `new_lines` (the spec's `resolve`).
The interactive prompt of source lines 67-69 is the `policy` argument,
giving the choice for the k-th region of the file.

The scanning part is translated from source lines 49-59: a region opens at
a line starting with `"<<<<<<< "`; the separator search starts at that same
index and the end search at the separator's index, each raising IndexError
(`ScanErr.indexError`) if it runs past end-of-file; `ours` is
`lines[i+1 : sep]` and `theirs` is `lines[sep+1 : theirs_end]`.

The reconstruction is modelled from the spec where the source is cut off
(after `new_lines.extend(lines[ours_start` on line 72).  Modelled from the
spec: per section 4.3, each region's full span (markers and separator
included) is replaced by `ours_text` for TakeOurs, `theirs_text` for
TakeTheirs, or `ours_text` followed by `theirs_text` for TakeBoth, so the
walk resumes at `theirs_end + 1`; text outside any region is copied
unchanged. -/
def conflictWalk (policy : Nat → ResolutionChoice) :
    List Line → Nat → Nat → Except ScanErr (List ConflictRegion × List Line)
  | [], _, _ => Except.ok ([], [])
  | line :: rest, i, k =>
    if isStartMarker line then
      match h1 : breakAt isSepMarker (line :: rest) with
      | none => Except.error ScanErr.indexError
      | some (b1, _sepLine, a1) =>
        match h2 : breakAt isEndMarker (_sepLine :: a1) with
        | none => Except.error ScanErr.indexError
        | some (b2, _endLine, a2) =>
          let sep : Nat := i + b1.length
          let tEnd : Nat := sep + b2.length
          let region : ConflictRegion :=
            { ours_start_line := i + 1
              separator_line := sep
              theirs_end_line := tEnd
              ours_text := b1.drop 1
              theirs_text := b2.drop 1 }
          let chosen : List Line :=
            match policy k with
            | ResolutionChoice.takeOurs => b1.drop 1
            | ResolutionChoice.takeTheirs => b2.drop 1
            | ResolutionChoice.takeBoth => b1.drop 1 ++ b2.drop 1
          match conflictWalk policy a2 (tEnd + 1) (k + 1) with
          | Except.error e => Except.error e
          | Except.ok (rs, out) => Except.ok (region :: rs, chosen ++ out)
    else
      match conflictWalk policy rest (i + 1) k with
      | Except.error e => Except.error e
      | Except.ok (rs, out) => Except.ok (rs, line :: out)
termination_by lines _ _ => lines.length
decreasing_by
  · have key : ∀ (p : Line → Bool) (xs : List Line), ∀ (a : List Line) (b : Line)
        (c : List Line), breakAt p xs = some (a, b, c) →
        xs.length = a.length + 1 + c.length := by
      intro p xs
      induction xs with
      | nil => intro a b c h; simp [breakAt] at h
      | cons x xs ih =>
        intro a b c h
        by_cases hp : p x
        · obtain ⟨ha, hb, hc⟩ : ([] : List Line) = a ∧ x = b ∧ xs = c := by
            simpa [breakAt, hp] using h
          subst ha; subst hc
          simp only [List.length_cons, List.length_nil]
          omega
        · cases hxs : breakAt p xs with
          | none => simp [breakAt, hp, hxs] at h
          | some v =>
            obtain ⟨a2, b2, c2⟩ := v
            obtain ⟨ha, hb, hc⟩ : x :: a2 = a ∧ b2 = b ∧ c2 = c := by
              simpa [breakAt, hp, hxs] using h
            subst ha; subst hc
            have hlen := ih a2 b2 c2 hxs
            simp only [List.length_cons] at hlen ⊢
            omega
    have k1 := key isSepMarker (line :: rest) b1 _sepLine a1 h1
    have k2 := key isEndMarker (_sepLine :: a1) b2 _endLine a2 h2
    simp only [List.length_cons] at k1 k2 ⊢
    omega
  · simp

/-- The spec's `scan`: the regions component of the walk (source lines
49-59).  The regions found do not depend on the resolution policy, so a
fixed policy is supplied. -/
def scan (lines : List Line) : Except ScanErr (List ConflictRegion) :=
  Except.map (fun r => r.1) (conflictWalk (fun _ => ResolutionChoice.takeOurs) lines 0 0)

/-- The spec's `resolve` at the line level: the rebuilt `new_lines`
component of the walk. -/
def resolveLines (lines : List Line) (policy : Nat → ResolutionChoice) :
    Except ScanErr (List Line) :=
  Except.map (fun r => r.2) (conflictWalk policy lines 0 0)

/-- `resolve_file` on a file's text: split into keepends lines as on source
line 45, walk, and join the rebuilt lines back into the file's new text. -/
def resolve_file (text : List Char) (policy : Nat → ResolutionChoice) :
    Except ScanErr (List Char) :=
  Except.map List.flatten (resolveLines (splitlines text) policy)

/-- How the external command behaves from the launcher's point of view: it
either launches and exits with a code (having written the given standard
output and standard error), or it cannot be launched at all. -/
inductive Launch where
  | launches (exitCode : Int) (out err : List Char)
  | cannotLaunch
deriving DecidableEq

/-- Python exceptions `subprocess.run` can raise here: `CalledProcessError`
(raised by `check=True` on a nonzero exit, carrying the exit code) and the
OSError family raised when the process cannot be launched at all (the
spec's `LaunchFailure`). -/
inductive RunExc where
  | calledProcessError (returncode : Int)
  | launchFailure
deriving DecidableEq

/-- Python's `subprocess.CompletedProcess` (the spec's `CommandResult`):
`stdout`/`stderr` are `none` unless output capture was requested. -/
structure CompletedProcess where
  returncode : Int
  stdout : Option (List Char)
  stderr : Option (List Char)
deriving DecidableEq

/-- The semantics of `subprocess.run(cmd, shell=True, check=check,
capture_output=co, ...)` for a command with the given behavior: a launch
failure raises; otherwise, with `check` set, a nonzero exit raises
`CalledProcessError`; otherwise the `CompletedProcess` is returned, with
output fields captured only when `co` is set. -/
def subprocess_run (behavior : Launch) (check : Bool) (co : Bool) :
    Except RunExc CompletedProcess :=
  match behavior with
  | Launch.cannotLaunch => Except.error RunExc.launchFailure
  | Launch.launches code out err =>
    if check ∧ code ≠ 0 then Except.error (RunExc.calledProcessError code)
    else
      Except.ok
        { returncode := code
          stdout := if co then some out else none
          stderr := if co then some err else none }

/-- Source lines 28-35: `run(cmd, *, check=True, capture=False)` calls
`subprocess.run` with `capture_output=True` when `capture` is set and
without output capture otherwise, passing `check` through in both cases. -/
def run (behavior : Launch) (check : Bool := true) (capture : Bool := false) :
    Except RunExc CompletedProcess :=
  if capture then subprocess_run behavior check true
  else subprocess_run behavior check false

/-- A well-formed conflict region as the spec describes one (section 4.2): a
start-marker line, the ours payload, a separator line, the theirs payload,
and an end-marker line. -/
structure RegionSpec where
  start_line : Line
  ours : List Line
  sep_line : Line
  theirs : List Line
  end_line : Line

/-- The lines a `RegionSpec` occupies in the file, in order. -/
def regionLines (r : RegionSpec) : List Line :=
  r.start_line :: (r.ours ++ r.sep_line :: (r.theirs ++ [r.end_line]))

/-- The marker-placement conditions under which the source's walk parses a
`RegionSpec` as one region: the three marker lines carry their prefixes,
no ours-payload line begins with the separator prefix (which would close
the ours side early), and no theirs-payload line begins with the end-marker
prefix (which would close the region early). -/
def RegionSpec.wf (r : RegionSpec) : Prop :=
  isStartMarker r.start_line = true ∧
  (∀ l ∈ r.ours, isSepMarker l = false) ∧
  isSepMarker r.sep_line = true ∧
  (∀ l ∈ r.theirs, isEndMarker l = false) ∧
  isEndMarker r.end_line = true

/-- A line that begins with none of the three marker prefixes. -/
def isPlainLine (l : Line) : Bool :=
  !(isStartMarker l || isSepMarker l || isEndMarker l)

/-- A fully well-formed region: correctly placed markers and payloads free
of any marker-prefixed line. -/
def RegionSpec.wfPlain (r : RegionSpec) : Prop :=
  r.wf ∧ (∀ l ∈ r.ours, isPlainLine l = true) ∧ (∀ l ∈ r.theirs, isPlainLine l = true)

/-- A conflicted file laid out as the spec describes: the regions in file
order, each followed by the plain text after it (`segs`), all after the
plain text `pre` before the first region. -/
def renderAll (segs : List (RegionSpec × List Line)) : List Line :=
  List.flatten (segs.map (fun s => regionLines s.1 ++ s.2))

/-- The lines a resolution choice keeps in place of a region's span
(spec section 4.3). -/
def chosenLines (c : ResolutionChoice) (r : RegionSpec) : List Line :=
  match c with
  | ResolutionChoice.takeOurs => r.ours
  | ResolutionChoice.takeTheirs => r.theirs
  | ResolutionChoice.takeBoth => r.ours ++ r.theirs

/-- The resolved line list the spec prescribes for the regions-and-gaps
layout `segs` when region `k` onward get their choices from `policy`. -/
def expectedOut (policy : Nat → ResolutionChoice) (k : Nat)
    (segs : List (RegionSpec × List Line)) : List Line :=
  match segs with
  | [] => []
  | (r, post) :: rest => chosenLines (policy k) r ++ post ++ expectedOut policy (k + 1) rest

/-- The `ConflictRegion` record the source's walk computes for a region
whose start-marker line sits at index `i`. -/
def regionAt (i : Nat) (r : RegionSpec) : ConflictRegion :=
  { ours_start_line := i + 1
    separator_line := i + 1 + r.ours.length
    theirs_end_line := i + 2 + r.ours.length + r.theirs.length
    ours_text := r.ours
    theirs_text := r.theirs }

/-- The regions the source's walk reports for the layout `segs` when its
first line sits at index `i`. -/
def expectedRegions (i : Nat) (segs : List (RegionSpec × List Line)) :
    List ConflictRegion :=
  match segs with
  | [] => []
  | (r, post) :: rest =>
    regionAt i r :: expectedRegions (i + (regionLines r).length + post.length) rest

theorem conflictWalk_nil (p : Nat → ResolutionChoice) (i k : Nat) :
    conflictWalk p [] i k = Except.ok ([], []) := by
  rw [conflictWalk]

theorem conflictWalk_cons_plain (p : Nat → ResolutionChoice) (l : Line)
    (rest : List Line) (i k : Nat) (h : isStartMarker l = false) :
    conflictWalk p (l :: rest) i k =
      Except.map (fun x => (x.1, l :: x.2)) (conflictWalk p rest (i + 1) k) := by
  rw [conflictWalk]
  rw [if_neg (by simp [h])]
  cases conflictWalk p rest (i + 1) k with
  | error e => simp [Except.map]
  | ok v => simp [Except.map]

theorem breakAt_of_forall_neg {p : Line → Bool} {xs : List Line}
    (h : ∀ l ∈ xs, p l = false) : breakAt p xs = none := by
  induction xs with
  | nil => rfl
  | cons x xs ih =>
    rw [breakAt]
    rw [if_neg (by simp [h x (by simp)])]
    rw [ih (fun l hl => h l (by simp [hl]))]

theorem breakAt_prefix {p : Line → Bool} {xs : List Line} {b : Line}
    {ys : List Line} (hxs : ∀ l ∈ xs, p l = false) (hb : p b = true) :
    breakAt p (xs ++ b :: ys) = some (xs, b, ys) := by
  induction xs with
  | nil =>
    rw [List.nil_append, breakAt, if_pos hb]
  | cons x xs ih =>
    rw [List.cons_append, breakAt]
    rw [if_neg (by simp [hxs x (by simp)])]
    rw [ih (fun l hl => hxs l (by simp [hl]))]

theorem isPrefixOf_head_eq {c : Char} {p l : List Char}
    (h : List.isPrefixOf (c :: p) l = true) : l.head? = some c := by
  obtain ⟨t, ht⟩ := List.isPrefixOf_iff_prefix.mp h
  rw [← ht]
  rfl

theorem isStartMarker_head {l : Line} (h : isStartMarker l = true) :
    l.head? = some '<' := by
  have h2 : List.isPrefixOf ('<' :: "<<<<<< ".toList) l = true := by
    have : oursMarker = '<' :: "<<<<<< ".toList := by decide
    rw [← this]; exact h
  exact isPrefixOf_head_eq h2

theorem isSepMarker_head {l : Line} (h : isSepMarker l = true) :
    l.head? = some '=' := by
  have h2 : List.isPrefixOf ('=' :: "======".toList) l = true := by
    have : sepMarker = '=' :: "======".toList := by decide
    rw [← this]; exact h
  exact isPrefixOf_head_eq h2

theorem isEndMarker_head {l : Line} (h : isEndMarker l = true) :
    l.head? = some '>' := by
  have h2 : List.isPrefixOf ('>' :: ">>>>>> ".toList) l = true := by
    have : theirsMarker = '>' :: ">>>>>> ".toList := by decide
    rw [← this]; exact h
  exact isPrefixOf_head_eq h2

theorem startMarker_not_sep {l : Line} (h : isStartMarker l = true) :
    isSepMarker l = false := by
  by_contra hc
  have h2 : isSepMarker l = true := by
    cases hs : isSepMarker l
    · exact absurd hs hc
    · rfl
  have := isStartMarker_head h
  have := isSepMarker_head h2
  simp_all

theorem sepMarker_not_end {l : Line} (h : isSepMarker l = true) :
    isEndMarker l = false := by
  by_contra hc
  have h2 : isEndMarker l = true := by
    cases hs : isEndMarker l
    · exact absurd hs hc
    · rfl
  have := isSepMarker_head h
  have := isEndMarker_head h2
  simp_all

theorem conflictWalk_region (p : Nat → ResolutionChoice) (r : RegionSpec)
    (tail : List Line) (i k : Nat) (hwf : r.wf) :
    conflictWalk p (regionLines r ++ tail) i k =
      Except.map (fun x => (regionAt i r :: x.1, chosenLines (p k) r ++ x.2))
        (conflictWalk p tail (i + (regionLines r).length) (k + 1)) := by
  obtain ⟨hstart, hours, hsep, htheirs, hend⟩ := hwf
  have hsplit : regionLines r ++ tail =
      r.start_line :: ((r.ours ++ r.sep_line :: (r.theirs ++ [r.end_line])) ++ tail) := by
    simp [regionLines]
  have hb1 : breakAt isSepMarker
      ((r.start_line :: r.ours) ++ r.sep_line :: (r.theirs ++ r.end_line :: tail)) =
      some (r.start_line :: r.ours, r.sep_line, r.theirs ++ r.end_line :: tail) := by
    apply breakAt_prefix
    · intro l hl
      rcases List.mem_cons.mp hl with h | h
      · subst h; exact startMarker_not_sep hstart
      · exact hours l h
    · exact hsep
  have hb1' : breakAt isSepMarker
      (r.start_line :: ((r.ours ++ r.sep_line :: (r.theirs ++ [r.end_line])) ++ tail)) =
      some (r.start_line :: r.ours, r.sep_line, r.theirs ++ r.end_line :: tail) := by
    rw [show r.start_line :: ((r.ours ++ r.sep_line :: (r.theirs ++ [r.end_line])) ++ tail) =
        (r.start_line :: r.ours) ++ r.sep_line :: (r.theirs ++ r.end_line :: tail) by simp]
    exact hb1
  have hb2 : breakAt isEndMarker
      ((r.sep_line :: r.theirs) ++ r.end_line :: tail) =
      some (r.sep_line :: r.theirs, r.end_line, tail) := by
    apply breakAt_prefix
    · intro l hl
      rcases List.mem_cons.mp hl with h | h
      · subst h; exact sepMarker_not_end hsep
      · exact htheirs l h
    · exact hend
  have hb2' : breakAt isEndMarker
      (r.sep_line :: (r.theirs ++ r.end_line :: tail)) =
      some (r.sep_line :: r.theirs, r.end_line, tail) := by
    rw [show r.sep_line :: (r.theirs ++ r.end_line :: tail) =
        (r.sep_line :: r.theirs) ++ r.end_line :: tail by simp]
    exact hb2
  rw [hsplit, conflictWalk, if_pos hstart]
  split
  · rename_i heq
    rw [hb1'] at heq
    simp at heq
  · rename_i b1 sL a1 heq
    rw [hb1'] at heq
    obtain ⟨h1a, h1b, h1c⟩ : r.start_line :: r.ours = b1 ∧ r.sep_line = sL ∧
        r.theirs ++ r.end_line :: tail = a1 := by simpa using heq
    subst h1a; subst h1b; subst h1c
    split
    · rename_i heq2
      rw [hb2'] at heq2
      simp at heq2
    · rename_i b2 eL a2 heq2
      rw [hb2'] at heq2
      obtain ⟨h2a, h2b, h2c⟩ : r.sep_line :: r.theirs = b2 ∧ r.end_line = eL ∧
          tail = a2 := by simpa using heq2
      subst h2a; subst h2b; subst h2c
      simp only [List.length_cons, List.drop_succ_cons, List.drop_zero]
      rw [show i + (r.ours.length + 1) + (r.theirs.length + 1) + 1 =
          i + (regionLines r).length by simp [regionLines]; omega]
      cases hrec : conflictWalk p tail (i + (regionLines r).length) (k + 1) with
      | error e => simp [Except.map]
      | ok v =>
        simp only [Except.map, Except.ok.injEq, Prod.mk.injEq, List.cons.injEq]
        refine ⟨⟨?_, trivial⟩, ?_⟩
        · simp [regionAt, ConflictRegion.mk.injEq]
          omega
        · cases hc : p k <;> simp [chosenLines]

theorem conflictWalk_copy (p : Nat → ResolutionChoice) (pre tail : List Line)
    (i k : Nat) (hpre : ∀ l ∈ pre, isStartMarker l = false) :
    conflictWalk p (pre ++ tail) i k =
      Except.map (fun x => (x.1, pre ++ x.2)) (conflictWalk p tail (i + pre.length) k) := by
  induction pre generalizing i with
  | nil =>
    simp only [List.nil_append, List.length_nil, Nat.add_zero]
    cases conflictWalk p tail i k <;> simp [Except.map]
  | cons x xs ih =>
    rw [List.cons_append, conflictWalk_cons_plain p x (xs ++ tail) i k (hpre x (by simp))]
    rw [ih (i + 1) (fun l hl => hpre l (by simp [hl]))]
    rw [show i + 1 + xs.length = i + (xs.length + 1) by omega]
    simp only [List.length_cons]
    cases conflictWalk p tail (i + (xs.length + 1)) k with
    | error e => simp [Except.map]
    | ok v => simp [Except.map]

theorem conflictWalk_plain (p : Nat → ResolutionChoice) (lines : List Line)
    (i k : Nat) (h : ∀ l ∈ lines, isStartMarker l = false) :
    conflictWalk p lines i k = Except.ok ([], lines) := by
  have h2 := conflictWalk_copy p lines [] i k h
  rw [List.append_nil] at h2
  rw [h2, conflictWalk_nil]
  simp [Except.map]

theorem conflictWalk_renderAll (p : Nat → ResolutionChoice)
    (segs : List (RegionSpec × List Line)) : ∀ (i k : Nat),
    (∀ s ∈ segs, (s.1).wf ∧ ∀ l ∈ s.2, isStartMarker l = false) →
    conflictWalk p (renderAll segs) i k =
      Except.ok (expectedRegions i segs, expectedOut p k segs) := by
  induction segs with
  | nil => intro i k _; simp [renderAll, conflictWalk_nil, expectedRegions, expectedOut]
  | cons s rest ih =>
    intro i k hwf
    obtain ⟨r, post⟩ := s
    have hs := hwf (r, post) (by simp)
    have hrender : renderAll ((r, post) :: rest) =
        regionLines r ++ (post ++ renderAll rest) := by
      simp [renderAll]
    rw [hrender]
    rw [conflictWalk_region p r (post ++ renderAll rest) i k hs.1]
    rw [conflictWalk_copy p post (renderAll rest) (i + (regionLines r).length) (k + 1) hs.2]
    rw [ih (i + (regionLines r).length + post.length) (k + 1)
      (fun s hs2 => hwf s (by simp [hs2]))]
    simp [Except.map, expectedRegions, expectedOut, List.append_assoc]

theorem flatten_splitlines (cs : List Char) : List.flatten (splitlines cs) = cs := by
  induction cs using splitlines.induct with
  | case1 => rfl
  | case2 c => rfl
  | case3 d rest ih => simp [splitlines, ih]
  | case4 rest hne ih => simp [splitlines, ih]
  | case5 d rest hd hne ih => simp [splitlines, hd, ih]
  | case6 c d rest h1 h2 hnil ih =>
    rw [hnil] at ih
    simp at ih
  | case7 c d rest h1 h2 l ls hcons ih =>
    rw [hcons] at ih
    rw [splitlines]
    simp only [if_neg h1, if_neg h2, hcons]
    simp at ih ⊢
    exact ih

theorem hasSub_iff_infix {n h : List Char} : hasSub n h = true ↔ n <:+: h := by
  induction h with
  | nil =>
    rw [hasSub]
    constructor
    · intro hp
      have hn : n = [] := by simpa using List.isPrefixOf_iff_prefix.mp hp
      simp [hn]
    · intro hi
      have hn : n = [] := List.infix_nil.mp hi
      subst hn
      simp [List.isPrefixOf_iff_prefix]
  | cons c rest ih =>
    rw [hasSub]
    constructor
    · intro hor
      rcases Bool.or_eq_true_iff.mp hor with hp | hs
      · exact (List.isPrefixOf_iff_prefix.mp hp).isInfix
      · exact (ih.mp hs).trans (List.infix_cons (List.infix_refl rest))
    · intro hi
      rcases List.infix_cons_iff.mp hi with hp | hs
      · exact Bool.or_eq_true_iff.mpr (Or.inl (List.isPrefixOf_iff_prefix.mpr hp))
      · exact Bool.or_eq_true_iff.mpr (Or.inr (ih.mpr hs))

theorem infix_of_mem_splitlines {l : Line} {cs : List Char} (h : l ∈ splitlines cs) :
    l <:+: cs := by
  have := List.infix_of_mem_flatten h
  rwa [flatten_splitlines] at this

theorem no_marker_of_no_token {cs : List Char}
    (h : has_conflict_markers cs = false) :
    ∀ l ∈ splitlines cs, isStartMarker l = false := by
  intro l hl
  by_contra hc
  have hmk : isStartMarker l = true := by
    cases hs : isStartMarker l
    · exact absurd hs hc
    · rfl
  have hpre : oursMarker <+: l := List.isPrefixOf_iff_prefix.mp hmk
  have htok : conflictToken <+: oursMarker := by decide
  have h1 : conflictToken <:+: l := (htok.trans hpre).isInfix
  have h2 : conflictToken <:+: cs := h1.trans (infix_of_mem_splitlines hl)
  have h3 : hasSub conflictToken cs = true := hasSub_iff_infix.mpr h2
  rw [has_conflict_markers] at h
  rw [h3] at h
  simp at h

theorem conflictWalk_marker_nosep (p : Nat → ResolutionChoice) (l : Line)
    (rest : List Line) (i k : Nat) (hl : isStartMarker l = true)
    (hnosep : ∀ x ∈ rest, isSepMarker x = false) :
    conflictWalk p (l :: rest) i k = Except.error ScanErr.indexError := by
  have hb : breakAt isSepMarker (l :: rest) = none := by
    apply breakAt_of_forall_neg
    intro x hx
    rcases List.mem_cons.mp hx with h | h
    · subst h; exact startMarker_not_sep hl
    · exact hnosep x h
  rw [conflictWalk, if_pos hl]
  split
  · rfl
  · rename_i b1 sL a1 heq
    rw [hb] at heq
    simp at heq

theorem conflictWalk_marker_noend (p : Nat → ResolutionChoice) (l : Line)
    (rest b1 : List Line) (sL : Line) (a1 : List Line) (i k : Nat)
    (hl : isStartMarker l = true)
    (hsome : breakAt isSepMarker (l :: rest) = some (b1, sL, a1))
    (hnone : breakAt isEndMarker (sL :: a1) = none) :
    conflictWalk p (l :: rest) i k = Except.error ScanErr.indexError := by
  rw [conflictWalk, if_pos hl]
  split
  · rfl
  · rename_i b1x sLx a1x heq
    rw [hsome] at heq
    obtain ⟨e1, e2, e3⟩ : b1 = b1x ∧ sL = sLx ∧ a1 = a1x := by simpa using heq
    subst e1; subst e2; subst e3
    split
    · rfl
    · rename_i b2 eL a2 heq2
      rw [hnone] at heq2
      simp at heq2

theorem scan_renderFile (pre : List Line) (segs : List (RegionSpec × List Line))
    (hpre : ∀ l ∈ pre, isStartMarker l = false)
    (hsegs : ∀ s ∈ segs, (s.1).wf ∧ ∀ l ∈ s.2, isStartMarker l = false) :
    scan (pre ++ renderAll segs) = Except.ok (expectedRegions pre.length segs) := by
  rw [scan, conflictWalk_copy _ pre (renderAll segs) 0 0 hpre]
  rw [conflictWalk_renderAll _ segs (0 + pre.length) 0 hsegs]
  simp [Except.map]

theorem resolveLines_renderFile (policy : Nat → ResolutionChoice) (pre : List Line)
    (segs : List (RegionSpec × List Line))
    (hpre : ∀ l ∈ pre, isStartMarker l = false)
    (hsegs : ∀ s ∈ segs, (s.1).wf ∧ ∀ l ∈ s.2, isStartMarker l = false) :
    resolveLines (pre ++ renderAll segs) policy =
      Except.ok (pre ++ expectedOut policy 0 segs) := by
  rw [resolveLines, conflictWalk_copy policy pre (renderAll segs) 0 0 hpre]
  rw [conflictWalk_renderAll policy segs (0 + pre.length) 0 hsegs]
  simp [Except.map]

theorem mem_expectedOut {l : Line} (policy : Nat → ResolutionChoice)
    (segs : List (RegionSpec × List Line)) : ∀ (k : Nat),
    l ∈ expectedOut policy k segs →
    ∃ s ∈ segs, l ∈ s.1.ours ∨ l ∈ s.1.theirs ∨ l ∈ s.2 := by
  induction segs with
  | nil => intro k h; simp [expectedOut] at h
  | cons s rest ih =>
    intro k h
    obtain ⟨r, post⟩ := s
    rw [expectedOut] at h
    rcases List.mem_append.mp h with h1 | h2
    · rcases List.mem_append.mp h1 with h3 | h4
      · refine ⟨(r, post), by simp, ?_⟩
        cases hc : policy k <;> rw [hc] at h3 <;> simp [chosenLines] at h3
        · exact Or.inl h3
        · exact Or.inr (Or.inl h3)
        · rcases h3 with h | h
          · exact Or.inl h
          · exact Or.inr (Or.inl h)
      · exact ⟨(r, post), by simp, Or.inr (Or.inr h4)⟩
    · obtain ⟨s2, hs2, hmem⟩ := ih (k + 1) h2
      exact ⟨s2, by simp [hs2], hmem⟩

theorem expectedRegions_ordered (segs : List (RegionSpec × List Line)) : ∀ (i : Nat),
    ∀ r ∈ expectedRegions i segs,
      r.ours_start_line ≤ r.separator_line ∧ r.separator_line < r.theirs_end_line := by
  induction segs with
  | nil => intro i r h; simp [expectedRegions] at h
  | cons s rest ih =>
    intro i r h
    obtain ⟨rs, post⟩ := s
    rw [expectedRegions] at h
    rcases List.mem_cons.mp h with h1 | h2
    · subst h1
      simp [regionAt]
      omega
    · exact ih _ r h2

/-- Claim C1, counterexample: with its default arguments (check=True), `run` raises
CalledProcessError when the launched command exits with the nonzero code 1, instead of
returning a CommandResult carrying that exit code. -/
theorem run_default_raises_on_nonzero_exit :
    run (Launch.launches 1 [] []) = Except.error (RunExc.calledProcessError 1) := rfl

/-- Claim C1, amended: `run` returns a CommandResult carrying a nonzero exit code without
raising only when called with check=False; with check=True a nonzero exit raises
CalledProcessError carrying that exit code; and inability to launch the process raises the
distinct LaunchFailure error, with or without capture. -/
theorem run_error_contract (code : Int) (out err : List Char) (check capture : Bool)
    (hc : code ≠ 0) :
    run (Launch.launches code out err) false capture =
      Except.ok { returncode := code
                  stdout := if capture then some out else none
                  stderr := if capture then some err else none } ∧
    run Launch.cannotLaunch check capture = Except.error RunExc.launchFailure ∧
    run (Launch.launches code out err) true capture =
      Except.error (RunExc.calledProcessError code) := by
  refine ⟨?_, ?_, ?_⟩
  · cases capture <;> simp [run, subprocess_run]
  · cases capture <;> simp [run, subprocess_run]
  · cases capture <;> simp [run, subprocess_run, hc]

/-- Claim C1, witness: the amended contract evaluated at exit code 1 with capture off. -/
theorem run_error_contract_witness :
    (1 : Int) ≠ 0 ∧
    (run (Launch.launches 1 [] []) false false =
      Except.ok { returncode := 1, stdout := none, stderr := none } ∧
    run Launch.cannotLaunch true false = Except.error RunExc.launchFailure ∧
    run (Launch.launches 1 [] []) true false =
      Except.error (RunExc.calledProcessError 1)) := by
  refine ⟨by decide, ?_⟩
  have h := run_error_contract 1 [] [] true false (by decide)
  simpa using h

/-- Claim C9: whenever `run` is called with the capture flag left at its default and
returns a result, that result carries no captured standard output or standard error
(both fields are None). -/
theorem run_without_capture_has_no_output (behavior : Launch) (check : Bool)
    (r : CompletedProcess) (h : run behavior check = Except.ok r) :
    r.stdout = none ∧ r.stderr = none := by
  rw [run] at h
  simp only [if_neg (by simp : ¬(false = true))] at h
  cases behavior with
  | cannotLaunch => simp [subprocess_run] at h
  | launches code out err =>
    rw [subprocess_run] at h
    by_cases hcz : check = true ∧ code ≠ 0
    · rw [if_pos hcz] at h; simp at h
    · rw [if_neg hcz] at h
      have : r = { returncode := code, stdout := none, stderr := none } := by
        simpa using h.symm
      simp [this]

/-- Claim C9, witness: evaluated on a command that launches and exits 0. -/
theorem run_without_capture_has_no_output_witness :
    ({ returncode := 0, stdout := none, stderr := none } : CompletedProcess).stdout = none ∧
    ({ returncode := 0, stdout := none, stderr := none } : CompletedProcess).stderr = none :=
  run_without_capture_has_no_output (Launch.launches 0 [] []) true
    { returncode := 0, stdout := none, stderr := none } rfl

theorem isPlainLine_no_start {l : Line} (h : isPlainLine l = true) :
    isStartMarker l = false := by
  rw [isPlainLine] at h
  simp at h
  exact h.1.1

theorem isPlainLine_split {l : Line} (h : isPlainLine l = true) :
    isStartMarker l = false ∧ isSepMarker l = false ∧ isEndMarker l = false := by
  rw [isPlainLine] at h
  simp at h
  exact ⟨h.1.1, h.1.2, h.2⟩

/-- Claim C2, amended: for every file with a line beginning with the start marker but no
subsequent line beginning with the separator marker before end-of-file, the scan fails
with an out-of-bounds index access (Python IndexError from the unguarded `lines[i]`),
not with a MalformedConflict report, and it does not return a truncated region. -/
theorem scan_missing_separator_index_error (pre : List Line) (l : Line)
    (rest : List Line) (hpre : ∀ x ∈ pre, isStartMarker x = false)
    (hl : isStartMarker l = true)
    (hnosep : ∀ x ∈ rest, isSepMarker x = false) :
    scan (pre ++ l :: rest) = Except.error ScanErr.indexError ∧
    scan (pre ++ l :: rest) ≠ Except.error ScanErr.malformedConflict := by
  have hs : scan (pre ++ l :: rest) = Except.error ScanErr.indexError := by
    rw [scan, conflictWalk_copy _ pre (l :: rest) 0 0 hpre]
    rw [conflictWalk_marker_nosep _ l rest (0 + pre.length) 0 hl hnosep]
    rfl
  refine ⟨hs, ?_⟩
  rw [hs]
  intro hcon
  have : ScanErr.indexError = ScanErr.malformedConflict := by
    injection hcon
  exact absurd this (by decide)

/-- Claim C2, witness: the amended statement on the concrete two-line file
"<<<<<<< a\n" "x\n". -/
theorem scan_missing_separator_index_error_witness :
    scan ["<<<<<<< a\n".toList, "x\n".toList] = Except.error ScanErr.indexError ∧
    scan ["<<<<<<< a\n".toList, "x\n".toList] ≠ Except.error ScanErr.malformedConflict := by
  have h := scan_missing_separator_index_error [] ("<<<<<<< a\n".toList)
    ["x\n".toList] (by decide) (by decide) (by decide)
  simpa using h

/-- Claim C2, counterexample: on a concrete file with a start marker and no separator,
`scan` fails with the out-of-bounds IndexError, and in particular does not report the
MalformedConflict error the claim promises. -/
theorem scan_missing_separator_counterexample :
    scan ["<<<<<<< b\n".toList, "y\n".toList] = Except.error ScanErr.indexError ∧
    scan ["<<<<<<< b\n".toList, "y\n".toList] ≠ Except.error ScanErr.malformedConflict := by
  have hs : scan ["<<<<<<< b\n".toList, "y\n".toList] = Except.error ScanErr.indexError := by
    rw [scan, conflictWalk_marker_nosep _ ("<<<<<<< b\n".toList) ["y\n".toList] 0 0
      (by decide) (by decide)]
    rfl
  refine ⟨hs, ?_⟩
  rw [hs]
  intro hcon
  have : ScanErr.indexError = ScanErr.malformedConflict := by
    injection hcon
  exact absurd this (by decide)

/-- Claim C5: for every file text containing zero conflict markers (in the sense of
`has_conflict_markers`), `scan` returns an empty region sequence and `resolve_file` is a
no-op returning the byte-identical text. -/
theorem scan_resolve_no_markers (text : List Char) (policy : Nat → ResolutionChoice)
    (h : has_conflict_markers text = false) :
    scan (splitlines text) = Except.ok [] ∧
    resolve_file text policy = Except.ok text := by
  have hplain := no_marker_of_no_token h
  constructor
  · rw [scan, conflictWalk_plain _ _ 0 0 hplain]
    rfl
  · rw [resolve_file, resolveLines, conflictWalk_plain policy _ 0 0 hplain]
    simp [Except.map, flatten_splitlines]

/-- Claim C5, witness: evaluated on the marker-free text "hello\nworld". -/
theorem scan_resolve_no_markers_witness :
    has_conflict_markers "hello\nworld".toList = false ∧
    (scan (splitlines "hello\nworld".toList) = Except.ok [] ∧
      resolve_file "hello\nworld".toList (fun _ => ResolutionChoice.takeOurs) =
        Except.ok "hello\nworld".toList) :=
  ⟨by decide, scan_resolve_no_markers "hello\nworld".toList
    (fun _ => ResolutionChoice.takeOurs) (by decide)⟩

/-- Claim C3: for every well-formed file with exactly one conflict region, TakeOurs
replaces the region's full span with exactly the ours lines, TakeTheirs with exactly
the theirs lines, TakeBoth with the ours lines immediately followed by the theirs lines,
and in all three cases no marker line remains in the output. -/
theorem resolve_single_region (pre post : List Line) (r : RegionSpec)
    (hpre : ∀ l ∈ pre, isPlainLine l = true)
    (hpost : ∀ l ∈ post, isPlainLine l = true)
    (hr : r.wfPlain) :
    resolveLines (pre ++ renderAll [(r, post)]) (fun _ => ResolutionChoice.takeOurs) =
      Except.ok (pre ++ (r.ours ++ post)) ∧
    resolveLines (pre ++ renderAll [(r, post)]) (fun _ => ResolutionChoice.takeTheirs) =
      Except.ok (pre ++ (r.theirs ++ post)) ∧
    resolveLines (pre ++ renderAll [(r, post)]) (fun _ => ResolutionChoice.takeBoth) =
      Except.ok (pre ++ ((r.ours ++ r.theirs) ++ post)) ∧
    (∀ l ∈ pre ++ (r.ours ++ post), isPlainLine l = true) ∧
    (∀ l ∈ pre ++ (r.theirs ++ post), isPlainLine l = true) ∧
    (∀ l ∈ pre ++ ((r.ours ++ r.theirs) ++ post), isPlainLine l = true) := by
  obtain ⟨hwf, hoursp, htheirsp⟩ := hr
  have hsegs : ∀ s ∈ [(r, post)], (s : RegionSpec × List Line).1.wf ∧
      ∀ l ∈ s.2, isStartMarker l = false := by
    intro s hs
    have : s = (r, post) := by simpa using hs
    subst this
    exact ⟨hwf, fun l hl => isPlainLine_no_start (hpost l hl)⟩
  have hpre2 : ∀ l ∈ pre, isStartMarker l = false :=
    fun l hl => isPlainLine_no_start (hpre l hl)
  refine ⟨?_, ?_, ?_, ?_, ?_, ?_⟩
  · rw [resolveLines_renderFile _ pre [(r, post)] hpre2 hsegs]
    simp [expectedOut, chosenLines]
  · rw [resolveLines_renderFile _ pre [(r, post)] hpre2 hsegs]
    simp [expectedOut, chosenLines]
  · rw [resolveLines_renderFile _ pre [(r, post)] hpre2 hsegs]
    simp [expectedOut, chosenLines]
  · intro l hl
    rcases List.mem_append.mp hl with h1 | h2
    · exact hpre l h1
    · rcases List.mem_append.mp h2 with h3 | h4
      · exact hoursp l h3
      · exact hpost l h4
  · intro l hl
    rcases List.mem_append.mp hl with h1 | h2
    · exact hpre l h1
    · rcases List.mem_append.mp h2 with h3 | h4
      · exact htheirsp l h3
      · exact hpost l h4
  · intro l hl
    rcases List.mem_append.mp hl with h1 | h2
    · exact hpre l h1
    · rcases List.mem_append.mp h2 with h3 | h4
      · rcases List.mem_append.mp h3 with h5 | h6
        · exact hoursp l h5
        · exact htheirsp l h6
      · exact hpost l h4

/-- Claim C3, witness: the three resolutions of a concrete one-region file. -/
theorem resolve_single_region_witness :
    resolveLines (["a\n".toList] ++ renderAll
        [(⟨"<<<<<<< H\n".toList, ["o\n".toList], "=======\n".toList,
          ["t\n".toList], ">>>>>>> B\n".toList⟩, ["z\n".toList])])
        (fun _ => ResolutionChoice.takeOurs) =
      Except.ok (["a\n".toList] ++ (["o\n".toList] ++ ["z\n".toList])) ∧
    resolveLines (["a\n".toList] ++ renderAll
        [(⟨"<<<<<<< H\n".toList, ["o\n".toList], "=======\n".toList,
          ["t\n".toList], ">>>>>>> B\n".toList⟩, ["z\n".toList])])
        (fun _ => ResolutionChoice.takeTheirs) =
      Except.ok (["a\n".toList] ++ (["t\n".toList] ++ ["z\n".toList])) ∧
    resolveLines (["a\n".toList] ++ renderAll
        [(⟨"<<<<<<< H\n".toList, ["o\n".toList], "=======\n".toList,
          ["t\n".toList], ">>>>>>> B\n".toList⟩, ["z\n".toList])])
        (fun _ => ResolutionChoice.takeBoth) =
      Except.ok (["a\n".toList] ++ ((["o\n".toList] ++ ["t\n".toList]) ++ ["z\n".toList])) ∧
    (∀ l ∈ ["a\n".toList] ++ (["o\n".toList] ++ ["z\n".toList]), isPlainLine l = true) ∧
    (∀ l ∈ ["a\n".toList] ++ (["t\n".toList] ++ ["z\n".toList]), isPlainLine l = true) ∧
    (∀ l ∈ ["a\n".toList] ++ ((["o\n".toList] ++ ["t\n".toList]) ++ ["z\n".toList]),
      isPlainLine l = true) :=
  resolve_single_region ["a\n".toList] ["z\n".toList]
    ⟨"<<<<<<< H\n".toList, ["o\n".toList], "=======\n".toList,
      ["t\n".toList], ">>>>>>> B\n".toList⟩
    (by decide) (by decide)
    (by unfold RegionSpec.wfPlain RegionSpec.wf; decide)

/-- Claim C7: for every well-formed conflicted file and every per-region choice,
scanning the output of resolve finds zero regions. -/
theorem scan_of_resolved_is_empty (pre : List Line)
    (segs : List (RegionSpec × List Line)) (policy : Nat → ResolutionChoice)
    (hpre : ∀ l ∈ pre, isPlainLine l = true)
    (hsegs : ∀ s ∈ segs, (s.1).wfPlain ∧ ∀ l ∈ s.2, isPlainLine l = true) :
    resolveLines (pre ++ renderAll segs) policy =
      Except.ok (pre ++ expectedOut policy 0 segs) ∧
    scan (pre ++ expectedOut policy 0 segs) = Except.ok [] := by
  have hpre2 : ∀ l ∈ pre, isStartMarker l = false :=
    fun l hl => isPlainLine_no_start (hpre l hl)
  have hsegs2 : ∀ s ∈ segs, (s.1).wf ∧ ∀ l ∈ s.2, isStartMarker l = false :=
    fun s hs => ⟨(hsegs s hs).1.1,
      fun l hl => isPlainLine_no_start ((hsegs s hs).2 l hl)⟩
  constructor
  · exact resolveLines_renderFile policy pre segs hpre2 hsegs2
  · rw [scan, conflictWalk_plain _ _ 0 0 ?_]
    · rfl
    · intro l hl
      rcases List.mem_append.mp hl with h1 | h2
      · exact hpre2 l h1
      · obtain ⟨s, hs, hmem⟩ := mem_expectedOut policy segs 0 h2
        rcases hmem with h3 | h3 | h3
        · exact isPlainLine_no_start ((hsegs s hs).1.2.1 l h3)
        · exact isPlainLine_no_start ((hsegs s hs).1.2.2 l h3)
        · exact isPlainLine_no_start ((hsegs s hs).2 l h3)

/-- Claim C7, witness: resolve-then-scan on a concrete one-region file with TakeBoth. -/
theorem scan_of_resolved_is_empty_witness :
    (resolveLines (["a\n".toList] ++ renderAll
        [(⟨"<<<<<<< H\n".toList, ["o\n".toList], "=======\n".toList,
          ["t\n".toList], ">>>>>>> B\n".toList⟩, ["z\n".toList])])
        (fun _ => ResolutionChoice.takeBoth) =
      Except.ok (["a\n".toList] ++ expectedOut (fun _ => ResolutionChoice.takeBoth) 0
        [(⟨"<<<<<<< H\n".toList, ["o\n".toList], "=======\n".toList,
          ["t\n".toList], ">>>>>>> B\n".toList⟩, ["z\n".toList])])) ∧
    scan (["a\n".toList] ++ expectedOut (fun _ => ResolutionChoice.takeBoth) 0
        [(⟨"<<<<<<< H\n".toList, ["o\n".toList], "=======\n".toList,
          ["t\n".toList], ">>>>>>> B\n".toList⟩, ["z\n".toList])]) =
      Except.ok [] :=
  scan_of_resolved_is_empty ["a\n".toList]
    [(⟨"<<<<<<< H\n".toList, ["o\n".toList], "=======\n".toList,
      ["t\n".toList], ">>>>>>> B\n".toList⟩, ["z\n".toList])]
    (fun _ => ResolutionChoice.takeBoth)
    (by decide)
    (by intro s hs
        have : s = (⟨"<<<<<<< H\n".toList, ["o\n".toList], "=======\n".toList,
          ["t\n".toList], ">>>>>>> B\n".toList⟩, ["z\n".toList]) := by simpa using hs
        subst this
        refine ⟨?_, by decide⟩
        unfold RegionSpec.wfPlain RegionSpec.wf
        decide)

/-- Claim C8, amended: every ConflictRegion produced by a scan of a well-formed file
satisfies ours_start_line ≤ separator_line < theirs_end_line (the first inequality is
not strict: it is an equality when the ours side is empty). -/
theorem scan_region_indices_ordered (pre : List Line)
    (segs : List (RegionSpec × List Line)) (rs : List ConflictRegion)
    (hpre : ∀ l ∈ pre, isStartMarker l = false)
    (hsegs : ∀ s ∈ segs, (s.1).wf ∧ ∀ l ∈ s.2, isStartMarker l = false)
    (hscan : scan (pre ++ renderAll segs) = Except.ok rs) :
    ∀ r ∈ rs, r.ours_start_line ≤ r.separator_line ∧
      r.separator_line < r.theirs_end_line := by
  have h2 := scan_renderFile pre segs hpre hsegs
  rw [hscan] at h2
  have hr : rs = expectedRegions pre.length segs := by
    simpa using h2
  subst hr
  exact fun r hr => expectedRegions_ordered segs pre.length r hr

/-- Claim C8, witness: the ordering on the region scanned from a concrete file. -/
theorem scan_region_indices_ordered_witness :
    (⟨1, 2, 4, ["o\n".toList], ["t\n".toList]⟩ : ConflictRegion).ours_start_line ≤
      (⟨1, 2, 4, ["o\n".toList], ["t\n".toList]⟩ : ConflictRegion).separator_line ∧
    (⟨1, 2, 4, ["o\n".toList], ["t\n".toList]⟩ : ConflictRegion).separator_line <
      (⟨1, 2, 4, ["o\n".toList], ["t\n".toList]⟩ : ConflictRegion).theirs_end_line :=
  scan_region_indices_ordered []
    [(⟨"<<<<<<< H\n".toList, ["o\n".toList], "=======\n".toList,
      ["t\n".toList], ">>>>>>> B\n".toList⟩, [])]
    [⟨1, 2, 4, ["o\n".toList], ["t\n".toList]⟩]
    (by decide)
    (by intro s hs
        have : s = (⟨"<<<<<<< H\n".toList, ["o\n".toList], "=======\n".toList,
          ["t\n".toList], ">>>>>>> B\n".toList⟩, []) := by simpa using hs
        subst this
        refine ⟨?_, by decide⟩
        unfold RegionSpec.wf
        decide)
    (scan_renderFile []
      [(⟨"<<<<<<< H\n".toList, ["o\n".toList], "=======\n".toList,
        ["t\n".toList], ">>>>>>> B\n".toList⟩, [])]
      (by decide)
      (by intro s hs
          have : s = (⟨"<<<<<<< H\n".toList, ["o\n".toList], "=======\n".toList,
            ["t\n".toList], ">>>>>>> B\n".toList⟩, []) := by simpa using hs
          subst this
          refine ⟨?_, by decide⟩
          unfold RegionSpec.wf
          decide))
    (⟨1, 2, 4, ["o\n".toList], ["t\n".toList]⟩ : ConflictRegion) (by simp)

/-- Claim C8, counterexample: a well-formed region whose ours side is empty scans to a
ConflictRegion with ours_start_line = separator_line = 1, refuting the claimed strict
ordering ours_start_line < separator_line. -/
theorem scan_empty_ours_region_counterexample :
    scan ["<<<<<<< a\n".toList, "=======\n".toList, "t\n".toList,
        ">>>>>>> b\n".toList] =
      Except.ok [⟨1, 1, 3, [], ["t\n".toList]⟩] ∧
    ¬ ((1 : Nat) < 1) := by
  constructor
  · exact scan_renderFile []
      [(⟨"<<<<<<< a\n".toList, [], "=======\n".toList,
        ["t\n".toList], ">>>>>>> b\n".toList⟩, [])]
      (by decide)
      (by intro s hs
          have : s = (⟨"<<<<<<< a\n".toList, [], "=======\n".toList,
            ["t\n".toList], ">>>>>>> b\n".toList⟩, []) := by simpa using hs
          subst this
          refine ⟨?_, by decide⟩
          unfold RegionSpec.wf
          decide)
  · decide

/-- Claim C4, amended: region scanning treats a line as structural only if it begins
with a marker prefix (a file with no line beginning with the start marker scans to zero
regions, whatever marker-like text its lines contain elsewhere); conflict detection
(`has_conflict_markers`), however, is a plain substring test and reports the start-marker
token wherever it occurs, including the middle of a line. -/
theorem scanning_by_prefix_detection_by_substring :
    (∀ lines : List Line, (∀ l ∈ lines, isStartMarker l = false) →
      scan lines = Except.ok []) ∧
    (∀ before after : List Char,
      has_conflict_markers (before ++ conflictToken ++ after) = true) := by
  constructor
  · intro lines h
    rw [scan, conflictWalk_plain _ _ 0 0 h]
    rfl
  · intro b a
    rw [has_conflict_markers]
    apply hasSub_iff_infix.mpr
    exact ⟨b, a, rfl⟩

/-- Claim C4, witness: a mid-line marker is not scanned as a region yet is detected. -/
theorem scanning_by_prefix_detection_by_substring_witness :
    scan ["ab<<<<<<<cd\n".toList] = Except.ok [] ∧
    has_conflict_markers ("ab".toList ++ conflictToken ++ "cd\n".toList) = true :=
  ⟨scanning_by_prefix_detection_by_substring.1 ["ab<<<<<<<cd\n".toList] (by decide),
    scanning_by_prefix_detection_by_substring.2 "ab".toList "cd\n".toList⟩

/-- Claim C4, counterexample: `has_conflict_markers` reports a conflict for a file whose
only marker-like text sits in the middle of a line, which the scan (correctly) treats as
not structural — refuting the claim that detection never fires on mid-line marker text. -/
theorem detection_fires_on_midline_marker :
    has_conflict_markers "ab<<<<<<<cd\n".toList = true ∧
    scan ["ab<<<<<<<cd\n".toList] = Except.ok [] := by
  constructor
  · decide
  · rw [scan, conflictWalk_plain _ _ 0 0 (by decide)]
    rfl

/-- Claim C10: the three marker prefixes are matched asymmetrically: a region opens only
at a line beginning with "<<<<<<< " (trailing space required, so the bare seven-character
marker never opens a region), the ours/theirs boundary is any line beginning with the
seven equals signs (no trailing-character requirement), and a region closes only at a
line beginning with ">>>>>>> " (trailing space required — a bare ">>>>>>>" line does not
close the region, so the walk runs off the end of the file). -/
theorem marker_matching_asymmetry :
    (∀ lines : List Line, (∀ l ∈ lines, isStartMarker l = false) →
      scan lines = Except.ok []) ∧
    isStartMarker "<<<<<<<\n".toList = false ∧
    isStartMarker "<<<<<<<".toList = false ∧
    isSepMarker "=======junk\n".toList = true ∧
    scan ["<<<<<<< x\n".toList, "o\n".toList, "=======junk\n".toList,
        "t\n".toList, ">>>>>>> y\n".toList] =
      Except.ok [⟨1, 2, 4, ["o\n".toList], ["t\n".toList]⟩] ∧
    scan ["<<<<<<< x\n".toList, "=======\n".toList, ">>>>>>>\n".toList] =
      Except.error ScanErr.indexError := by
  refine ⟨?_, by decide, by decide, by decide, ?_, ?_⟩
  · intro lines h
    rw [scan, conflictWalk_plain _ _ 0 0 h]
    rfl
  · exact scan_renderFile []
      [(⟨"<<<<<<< x\n".toList, ["o\n".toList], "=======junk\n".toList,
        ["t\n".toList], ">>>>>>> y\n".toList⟩, [])]
      (by decide)
      (by intro s hs
          have : s = (⟨"<<<<<<< x\n".toList, ["o\n".toList], "=======junk\n".toList,
            ["t\n".toList], ">>>>>>> y\n".toList⟩, []) := by simpa using hs
          subst this
          refine ⟨?_, by decide⟩
          unfold RegionSpec.wf
          decide)
  · rw [scan, conflictWalk_marker_noend _ ("<<<<<<< x\n".toList)
      ["=======\n".toList, ">>>>>>>\n".toList] ["<<<<<<< x\n".toList]
      ("=======\n".toList) [">>>>>>>\n".toList] 0 0
      (by decide) (by decide) (by decide)]
    rfl

/-- Claim C10, witness: a file whose lines carry no start-marker prefix (a bare marker
among them) scans to zero regions. -/
theorem marker_matching_asymmetry_witness :
    scan ["<<<<<<<\n".toList, "=======\n".toList, ">>>>>>> x\n".toList] =
      Except.ok [] :=
  marker_matching_asymmetry.1
    ["<<<<<<<\n".toList, "=======\n".toList, ">>>>>>> x\n".toList] (by decide)

theorem breakAt_some_decomp {p : Line → Bool} {xs a : List Line} {b : Line}
    {c : List Line} (h : breakAt p xs = some (a, b, c)) :
    xs = a ++ b :: c ∧ (∀ x ∈ a, p x = false) ∧ p b = true := by
  induction xs generalizing a with
  | nil => simp [breakAt] at h
  | cons x xs ih =>
    by_cases hp : p x
    · obtain ⟨ha, hb, hc⟩ : ([] : List Line) = a ∧ x = b ∧ xs = c := by
        simpa [breakAt, hp] using h
      subst ha; subst hb; subst hc
      exact ⟨rfl, by simp, hp⟩
    · cases hxs : breakAt p xs with
      | none => simp [breakAt, hp, hxs] at h
      | some v =>
        obtain ⟨a2, b2, c2⟩ := v
        obtain ⟨ha, hb, hc⟩ : x :: a2 = a ∧ b2 = b ∧ c2 = c := by
          simpa [breakAt, hp, hxs] using h
        subst ha; subst hb; subst hc
        obtain ⟨hd, he, hf⟩ := ih hxs
        refine ⟨by rw [List.cons_append, ← hd], ?_, hf⟩
        intro y hy
        rcases List.mem_cons.mp hy with hy | hy
        · subst hy
          simp [hp]
        · exact he y hy

theorem breakAt_some_length2 {p : Line → Bool} {xs a : List Line} {b : Line}
    {c : List Line} (h : breakAt p xs = some (a, b, c)) :
    xs.length = a.length + 1 + c.length := by
  obtain ⟨hd, _, _⟩ := breakAt_some_decomp h
  subst hd
  simp
  omega

theorem conflictWalk_ok_decomp :
    ∀ (n : Nat) (lines : List Line), lines.length ≤ n →
    ∀ (p : Nat → ResolutionChoice) (i k : Nat) (rs : List ConflictRegion)
      (out : List Line), conflictWalk p lines i k = Except.ok (rs, out) →
    ∃ pre segs, lines = pre ++ renderAll segs ∧
      (∀ l ∈ pre, isStartMarker l = false) ∧
      ∀ s ∈ segs, (s : RegionSpec × List Line).1.wf ∧
        ∀ l ∈ s.2, isStartMarker l = false := by
  intro n
  induction n with
  | zero =>
    intro lines hlen p i k rs out h
    have : lines = [] := List.length_eq_zero.mp (Nat.le_zero.mp hlen)
    subst this
    exact ⟨[], [], by simp [renderAll], by simp, by simp⟩
  | succ n ihn =>
    intro lines hlen p i k rs out h
    cases lines with
    | nil => exact ⟨[], [], by simp [renderAll], by simp, by simp⟩
    | cons l rest =>
      by_cases hl : isStartMarker l = true
      · rw [conflictWalk, if_pos hl] at h
        split at h
        · simp at h
        · rename_i b1 sL a1 heq1
          split at h
          · simp at h
          · rename_i b2 eL a2 heq2
            obtain ⟨hd1, hn1, hp1⟩ := breakAt_some_decomp heq1
            obtain ⟨hd2, hn2, hp2⟩ := breakAt_some_decomp heq2
            cases b1 with
            | nil =>
              have hone : l = sL := by simpa using congrArg List.head? hd1
              rw [hone] at hl
              rw [startMarker_not_sep hl] at hp1
              simp at hp1
            | cons x ours2 =>
              have hxl : x = l := by simpa using (congrArg List.head? hd1).symm
              subst hxl
              cases b2 with
              | nil =>
                have hone : sL = eL := by simpa using congrArg List.head? hd2
                rw [hone] at hp1
                rw [sepMarker_not_end hp1] at hp2
                simp at hp2
              | cons y theirs2 =>
                have hysl : y = sL := by simpa using (congrArg List.head? hd2).symm
                subst hysl
                simp only [List.length_cons] at h
                split at h
                · simp at h
                · rename_i rs2 out2 heq3
                  have hlen2 : a2.length ≤ n := by
                    have e1 := breakAt_some_length2 heq1
                    have e2 := breakAt_some_length2 heq2
                    simp only [List.length_cons] at e1 e2 hlen
                    omega
                  obtain ⟨pre2, segs2, hsplit2, hpre2, hsegs2⟩ :=
                    ihn a2 hlen2 p _ (k + 1) rs2 out2 heq3
                  refine ⟨[], (⟨x, ours2, y, theirs2, eL⟩, pre2) :: segs2, ?_, by simp, ?_⟩
                  · rw [List.nil_append]
                    have hra : renderAll ((⟨x, ours2, y, theirs2, eL⟩, pre2) :: segs2) =
                        regionLines ⟨x, ours2, y, theirs2, eL⟩ ++
                          (pre2 ++ renderAll segs2) := by
                      simp [renderAll]
                    rw [hra, ← hsplit2]
                    have ha1 : a1 = theirs2 ++ eL :: a2 := by simpa using hd2
                    rw [show x :: rest = (x :: ours2) ++ y :: a1 from hd1, ha1]
                    simp [regionLines]
                  · intro s hs
                    rcases List.mem_cons.mp hs with hs | hs
                    · subst hs
                      refine ⟨⟨hl, ?_, hp1, ?_, hp2⟩, hpre2⟩
                      · intro x2 hx2
                        exact hn1 x2 (by simp [hx2])
                      · intro x2 hx2
                        exact hn2 x2 (by simp [hx2])
                    · exact hsegs2 s hs
      · have hl2 : isStartMarker l = false := by
          cases hx : isStartMarker l
          · rfl
          · exact absurd hx hl
        rw [conflictWalk_cons_plain p l rest i k hl2] at h
        cases hrec : conflictWalk p rest (i + 1) k with
        | error e =>
          rw [hrec] at h
          simp [Except.map] at h
        | ok v =>
          have hlen2 : rest.length ≤ n := by
            simp only [List.length_cons] at hlen
            omega
          obtain ⟨pre2, segs2, hsplit2, hpre2, hsegs2⟩ :=
            ihn rest hlen2 p (i + 1) k v.1 v.2 (by rw [hrec])
          refine ⟨l :: pre2, segs2, by simp [hsplit2], ?_, hsegs2⟩
          intro x hx
          rcases List.mem_cons.mp hx with hx | hx
          · subst hx
            exact hl2
          · exact hpre2 x hx

/-- Claim C6: for every file and per-region choices, resolve rewrites only the region
spans: on a file laid out as plain text and regions, the output is exactly the plain
text outside the spans, byte-for-byte, with each span replaced by its chosen lines; and
conversely every file the walk resolves successfully is of that laid-out form. -/
theorem resolve_preserves_outside_text :
    (∀ (text : List Char) (policy : Nat → ResolutionChoice) (pre : List Line)
      (segs : List (RegionSpec × List Line)),
      splitlines text = pre ++ renderAll segs →
      (∀ l ∈ pre, isStartMarker l = false) →
      (∀ s ∈ segs, (s : RegionSpec × List Line).1.wf ∧
        ∀ l ∈ s.2, isStartMarker l = false) →
      resolve_file text policy =
        Except.ok (List.flatten (pre ++ expectedOut policy 0 segs))) ∧
    (∀ (lines : List Line) (policy : Nat → ResolutionChoice) (i k : Nat)
      (rs : List ConflictRegion) (out : List Line),
      conflictWalk policy lines i k = Except.ok (rs, out) →
      ∃ pre segs, lines = pre ++ renderAll segs ∧
        (∀ l ∈ pre, isStartMarker l = false) ∧
        ∀ s ∈ segs, (s : RegionSpec × List Line).1.wf ∧
          ∀ l ∈ s.2, isStartMarker l = false) := by
  constructor
  · intro text policy pre segs hsplit hpre hsegs
    rw [resolve_file, hsplit, resolveLines_renderFile policy pre segs hpre hsegs]
    rfl
  · intro lines policy i k rs out h
    exact conflictWalk_ok_decomp lines.length lines (Nat.le_refl _) policy i k rs out h

/-- Claim C6, witness: the frame property on a concrete one-region file. -/
theorem resolve_preserves_outside_text_witness :
    resolve_file "a\n<<<<<<< H\no\n=======\nt\n>>>>>>> B\nz\n".toList
        (fun _ => ResolutionChoice.takeOurs) =
      Except.ok (List.flatten (["a\n".toList] ++
        expectedOut (fun _ => ResolutionChoice.takeOurs) 0
          [(⟨"<<<<<<< H\n".toList, ["o\n".toList], "=======\n".toList,
            ["t\n".toList], ">>>>>>> B\n".toList⟩, ["z\n".toList])])) :=
  resolve_preserves_outside_text.1
    "a\n<<<<<<< H\no\n=======\nt\n>>>>>>> B\nz\n".toList
    (fun _ => ResolutionChoice.takeOurs) ["a\n".toList]
    [(⟨"<<<<<<< H\n".toList, ["o\n".toList], "=======\n".toList,
      ["t\n".toList], ">>>>>>> B\n".toList⟩, ["z\n".toList])]
    (by decide) (by decide)
    (by intro s hs
        have : s = (⟨"<<<<<<< H\n".toList, ["o\n".toList], "=======\n".toList,
          ["t\n".toList], ">>>>>>> B\n".toList⟩, ["z\n".toList]) := by simpa using hs
        subst this
        refine ⟨?_, by decide⟩
        unfold RegionSpec.wf
        decide)
